import Mathlib

/-!
Shallow embedding of the dataset-comparison pipeline in
`src/Fonseca/Pregunta.py`: CSV rows carrying a `time` and a `prom`
column receive a provenance label `etiqueta`, the `time` column is
normalized to a calendar timestamp, each table is filtered to a single
calendar month, and the filtered tables are rendered as kernel-density
curves.
-/

/-- A structured calendar timestamp, the result of normalizing the raw
`time` strings with `pd.to_datetime`; `month` mirrors `Series.dt.month`. -/
structure Timestamp where
  year : Nat
  month : Nat
  day : Nat
deriving DecidableEq, Repr

/-- One row of an observation table.  The `time` column is a raw string
before normalization and a `Timestamp` after, so the row is parametric
in the type of `time`; `prom` is the numeric mean temperature,
`etiqueta` the provenance label, and `extra` the remaining CSV columns,
kept verbatim as header/value pairs. -/
structure Row (τ : Type) where
  time : τ
  prom : ℚ
  etiqueta : String
  extra : List (String × String)
deriving DecidableEq, Repr

/-- Error taxonomy of the pipeline (spec section 7). -/
inductive PipelineError where
  | dataAccessError
  | parseError (raw : String)
  | renderError
deriving DecidableEq, Repr

/-- Numeric value of a decimal digit character. -/
def digitVal (c : Char) : Nat := c.toNat - 48

/-- Reads a non-empty, all-digit character list as a natural number. -/
def digitsToNat : List Char → Option Nat
  | [] => none
  | cs =>
    if cs.all Char.isDigit then some (cs.foldl (fun n c => n * 10 + digitVal c) 0)
    else none

/-- Splits a character list at every dash. -/
def splitDash : List Char → List (List Char)
  | [] => [[]]
  | c :: cs =>
    if c = '-' then [] :: splitDash cs
    else
      match splitDash cs with
      | [] => [[c]]
      | g :: gs => (c :: g) :: gs

/-- Modelled from the spec: `pd.to_datetime` (library code, not part of
the repository) parsing one value of the `time` column, restricted to
the spec's "ISO-like date/time string" in the standard calendar format
`YYYY-MM-DD`; yields `none` on anything unrecognizable. -/
def parseDate (s : String) : Option Timestamp :=
  match splitDash s.data with
  | [y, m, d] =>
    match digitsToNat y, digitsToNat m, digitsToNat d with
    | some yn, some mn, some dn =>
      if 1 ≤ mn ∧ mn ≤ 12 ∧ 1 ≤ dn ∧ dn ≤ 31 then some ⟨yn, mn, dn⟩
      else none
    | _, _, _ => none
  | _ => none

/-- Normalization of one row: parse the raw `time` string and keep every
other attribute unchanged (the in-place column assignment of
`df['time'] = pd.to_datetime(df['time'])` restricted to one row). -/
def normalizeRow (r : Row String) : Except PipelineError (Row Timestamp) :=
  match parseDate r.time with
  | some ts => .ok ⟨ts, r.prom, r.etiqueta, r.extra⟩
  | none => .error (.parseError r.time)

/-- Lines 18-19 of the source: normalize every row's `time` value,
failing with a `ParseError` on the first unrecognizable string. -/
def normalizeTimestamp : List (Row String) → Except PipelineError (List (Row Timestamp))
  | [] => .ok []
  | r :: rs => do
    let r' ← normalizeRow r
    let rs' ← normalizeTimestamp rs
    .ok (r' :: rs')

/-- `df['etiqueta'] = l` (lines 8 and 15): assign the provenance label
to every row of the table. -/
def setEtiqueta {τ : Type} (df : List (Row τ)) (l : String) : List (Row τ) :=
  df.map fun r => { r with etiqueta := l }

/-- `df[df['time'].dt.month == m]` (lines 22 and 24): keep, in their
original order, exactly the rows whose timestamp falls in calendar
month `m`. -/
def filterByMonth (t : List (Row Timestamp)) (m : Nat) : List (Row Timestamp) :=
  t.filter fun r => r.time.month == m

/-- Modelled from the spec: the minimum number of points the density
estimator needs, "an implementation-defined threshold, typically 2". -/
def minKdePoints : Nat := 2

/-- Modelled from the spec: `sns.kdeplot(data=t, x='prom', label=l)`
(library code, not part of the repository) draws the density of the
`prom` column and fails with a `RenderError` when the table has fewer
than `minKdePoints` rows.  The pure model returns the sample points the
curve is estimated from. -/
def kdeplot (t : List (Row Timestamp)) : Except PipelineError (List ℚ) :=
  if t.length < minKdePoints then .error .renderError
  else .ok (t.map fun r => r.prom)

/-- Lines 33-34 of the source: one `kdeplot` call per labeled table,
collecting the drawn curves together with their legend labels. -/
def render : List (List (Row Timestamp) × String) → Except PipelineError (List (List ℚ × String))
  | [] => .ok []
  | (t, lab) :: rest => do
    let c ← kdeplot t
    let cs ← render rest
    .ok ((c, lab) :: cs)

/-- Line 22: `df_abril_2023 = df_2023[df_2023['time'].dt.month == 3]`. -/
def df_abril_2023 (df_2023 : List (Row Timestamp)) : List (Row Timestamp) :=
  filterByMonth df_2023 3

/-- Line 24: `df_abril_2020 = df_2020[df_2020['time'].dt.month == 3]`. -/
def df_abril_2020 (df_2020 : List (Row Timestamp)) : List (Row Timestamp) :=
  filterByMonth df_2020 3

/-- The per-year part of the pipeline (lines 8-24): label assignment,
timestamp normalization, then the month-3 filter. -/
def yearPipeline (raw : List (Row String)) (l : String) :
    Except PipelineError (List (Row Timestamp)) := do
  let labeled := setEtiqueta raw l
  let norm ← normalizeTimestamp labeled
  .ok (filterByMonth norm 3)

/-- The fixture rows of the spec's end-to-end scenario, as loaded. -/
def fixtureRaw : List (Row String) :=
  [⟨"2020-03-01", 14.2, "", []⟩, ⟨"2020-04-01", 18.0, "", []⟩]

/-- The fixture rows after timestamp normalization. -/
def fixtureNorm : List (Row Timestamp) :=
  [⟨⟨2020, 3, 1⟩, 14.2, "", []⟩, ⟨⟨2020, 4, 1⟩, 18.0, "", []⟩]

/-- The single March row of the fixture table, normalized. -/
def fixtureMarchRow : Row Timestamp := ⟨⟨2020, 3, 1⟩, 14.2, "", []⟩

/-! ### Helper lemmas -/

theorem mem_filterByMonth {t : List (Row Timestamp)} {m : Nat} {r : Row Timestamp} :
    r ∈ filterByMonth t m ↔ r ∈ t ∧ r.time.month = m := by
  simp [filterByMonth, List.mem_filter]

theorem filterByMonth_sublist (t : List (Row Timestamp)) (m : Nat) :
    (filterByMonth t m).Sublist t :=
  List.filter_sublist t

theorem normalizeTimestamp_cons (r : Row String) (rs : List (Row String)) :
    normalizeTimestamp (r :: rs) =
      (normalizeRow r).bind fun r' =>
        (normalizeTimestamp rs).bind fun rs' => .ok (r' :: rs') := rfl

theorem normalizeRow_ok_iff {r : Row String} {r' : Row Timestamp} :
    normalizeRow r = .ok r' ↔
      parseDate r.time = some r'.time ∧ r'.prom = r.prom ∧
        r'.etiqueta = r.etiqueta ∧ r'.extra = r.extra := by
  unfold normalizeRow
  cases hp : parseDate r.time with
  | none => simp
  | some ts =>
    simp only [Except.ok.injEq, Option.some.injEq]
    constructor
    · rintro rfl; exact ⟨rfl, rfl, rfl, rfl⟩
    · rintro ⟨h1, h2, h3, h4⟩
      cases r' with
      | mk time prom etiqueta extra => cases h1; cases h2; cases h3; cases h4; rfl

/-- `normalizeTimestamp` succeeds exactly when it succeeds row by row,
in order. -/
theorem normalizeTimestamp_ok_iff :
    ∀ {t : List (Row String)} {out : List (Row Timestamp)},
      normalizeTimestamp t = .ok out ↔
        List.Forall₂ (fun r r' => normalizeRow r = .ok r') t out := by
  intro t
  induction t with
  | nil =>
    intro out
    constructor
    · intro h
      cases h
      exact List.Forall₂.nil
    · intro h
      cases h
      rfl
  | cons r rs ih =>
    intro out
    rw [normalizeTimestamp_cons]
    constructor
    · intro h
      cases hr : normalizeRow r with
      | error e => rw [hr] at h; cases h
      | ok r' =>
        rw [hr] at h
        cases hrs : normalizeTimestamp rs with
        | error e => rw [hrs] at h; cases h
        | ok rs' =>
          rw [hrs] at h
          cases h
          exact List.Forall₂.cons hr (ih.mp hrs)
    · intro h
      cases h with
      | cons hr hrs =>
        rw [hr, ih.mpr hrs]
        rfl

theorem normalizeTimestamp_error_parse :
    ∀ {t : List (Row String)} {e : PipelineError},
      normalizeTimestamp t = .error e →
        ∃ r ∈ t, parseDate r.time = none ∧ e = .parseError r.time := by
  intro t
  induction t with
  | nil => intro e h; cases h
  | cons r rs ih =>
    intro e h
    rw [normalizeTimestamp_cons] at h
    cases hr : normalizeRow r with
    | error e' =>
      rw [hr] at h
      cases h
      unfold normalizeRow at hr
      cases hp : parseDate r.time with
      | none =>
        rw [hp] at hr
        cases hr
        exact ⟨r, List.mem_cons_self r rs, hp, rfl⟩
      | some ts => rw [hp] at hr; cases hr
    | ok r' =>
      rw [hr] at h
      cases hrs : normalizeTimestamp rs with
      | error e' =>
        rw [hrs] at h
        cases h
        obtain ⟨r₀, hmem, hnone, he⟩ := ih hrs
        exact ⟨r₀, List.mem_cons_of_mem r hmem, hnone, he⟩
      | ok rs' => rw [hrs] at h; cases h

theorem normalizeTimestamp_total :
    ∀ {t : List (Row String)},
      (∀ r ∈ t, (parseDate r.time).isSome) →
        ∃ out, normalizeTimestamp t = .ok out := by
  intro t
  induction t with
  | nil => intro _; exact ⟨[], rfl⟩
  | cons r rs ih =>
    intro h
    obtain ⟨ts, hts⟩ := Option.isSome_iff_exists.mp (h r (List.mem_cons_self r rs))
    obtain ⟨out, hout⟩ := ih fun r' hr' => h r' (List.mem_cons_of_mem r hr')
    refine ⟨⟨ts, r.prom, r.etiqueta, r.extra⟩ :: out, ?_⟩
    rw [normalizeTimestamp_cons]
    unfold normalizeRow
    rw [hts, hout]
    rfl

theorem mem_setEtiqueta {τ : Type} {df : List (Row τ)} {l : String} {r : Row τ} :
    r ∈ setEtiqueta df l → r.etiqueta = l := by
  intro h
  simp only [setEtiqueta, List.mem_map] at h
  obtain ⟨r₀, _, rfl⟩ := h
  rfl

theorem forall₂_normalizeRow_etiqueta :
    ∀ {t : List (Row String)} {out : List (Row Timestamp)},
      List.Forall₂ (fun r r' => normalizeRow r = .ok r') t out →
        ∀ r ∈ out, ∃ r₀ ∈ t, r.etiqueta = r₀.etiqueta := by
  intro t out h
  induction h with
  | nil => intro r hr; cases hr
  | cons hrow _ ih =>
    intro r hr
    rcases List.mem_cons.mp hr with rfl | htail
    · exact ⟨_, List.mem_cons_self _ _, (normalizeRow_ok_iff.mp hrow).2.2.1⟩
    · obtain ⟨r₀, hm, he⟩ := ih r htail
      exact ⟨r₀, List.mem_cons_of_mem _ hm, he⟩

theorem normalizeTimestamp_etiqueta {t : List (Row String)}
    {out : List (Row Timestamp)} (h : normalizeTimestamp t = .ok out) :
    ∀ r ∈ out, ∃ r₀ ∈ t, r.etiqueta = r₀.etiqueta :=
  forall₂_normalizeRow_etiqueta (normalizeTimestamp_ok_iff.mp h)

theorem forall₂_normalizeRow_map_time :
    ∀ {t : List (Row String)} {out : List (Row Timestamp)},
      List.Forall₂ (fun r r' => normalizeRow r = .ok r') t out →
        out.map (fun r => some r.time) = t.map fun r => parseDate r.time := by
  intro t out h
  induction h with
  | nil => rfl
  | cons hrow _ ih =>
    simp only [List.map_cons]
    rw [ih, (normalizeRow_ok_iff.mp hrow).1]

theorem forall₂_normalizeRow_map_attrs :
    ∀ {t : List (Row String)} {out : List (Row Timestamp)},
      List.Forall₂ (fun r r' => normalizeRow r = .ok r') t out →
        out.map (fun r => ((some r.time : Option Timestamp), r.prom, r.etiqueta, r.extra))
          = t.map fun r => (parseDate r.time, r.prom, r.etiqueta, r.extra) := by
  intro t out h
  induction h with
  | nil => rfl
  | cons hrow _ ih =>
    obtain ⟨h1, h2, h3, h4⟩ := normalizeRow_ok_iff.mp hrow
    simp only [List.map_cons]
    rw [ih, h1, h2, h3, h4]

theorem forall₂_normalizeRow_isSome :
    ∀ {t : List (Row String)} {out : List (Row Timestamp)},
      List.Forall₂ (fun r r' => normalizeRow r = .ok r') t out →
        ∀ r ∈ t, (parseDate r.time).isSome := by
  intro t out h
  induction h with
  | nil => intro r hr; cases hr
  | cons hrow _ ih =>
    intro r hr
    rcases List.mem_cons.mp hr with rfl | htail
    · rw [(normalizeRow_ok_iff.mp hrow).1]; rfl
    · exact ih r htail

theorem render_cons (t : List (Row Timestamp)) (lab : String)
    (rest : List (List (Row Timestamp) × String)) :
    render ((t, lab) :: rest) =
      (kdeplot t).bind fun c =>
        (render rest).bind fun cs => .ok ((c, lab) :: cs) := rfl

theorem kdeplot_short {t : List (Row Timestamp)} (h : t.length < minKdePoints) :
    kdeplot t = .error .renderError := by
  simp [kdeplot, h]

theorem kdeplot_error_eq {t : List (Row Timestamp)} {e : PipelineError}
    (h : kdeplot t = .error e) : e = .renderError := by
  unfold kdeplot at h
  split at h
  · cases h; rfl
  · cases h

/-! ### Claim theorems -/

/-- C1: for every table and month `m`, `filterByMonth` returns exactly the
rows whose `time.month` equals `m`, and the result is a subsequence of the
input, so the relative order of the kept rows is preserved. -/
theorem c1_filterByMonth_exact_subsequence (t : List (Row Timestamp)) (m : Nat) :
    (∀ r ∈ filterByMonth t m, r.time.month = m) ∧
    (∀ r ∈ t, r.time.month = m → r ∈ filterByMonth t m) ∧
    (filterByMonth t m).Sublist t :=
  ⟨fun _ hr => (mem_filterByMonth.mp hr).2,
   fun _ hr hm => mem_filterByMonth.mpr ⟨hr, hm⟩,
   filterByMonth_sublist t m⟩

/-- C2: after loading (the raw table) and `normalizeTimestamp`, every `time`
value is the structured timestamp obtained by parsing the corresponding
original string with the standard calendar format. -/
theorem c2_normalize_parses_each_time (raw : List (Row String))
    (out : List (Row Timestamp)) (h : normalizeTimestamp raw = .ok out) :
    out.map (fun r => some r.time) = raw.map fun r => parseDate r.time :=
  forall₂_normalizeRow_map_time (normalizeTimestamp_ok_iff.mp h)

theorem c2_normalize_parses_each_time_witness :
    fixtureNorm.map (fun r => some r.time) = fixtureRaw.map fun r => parseDate r.time :=
  c2_normalize_parses_each_time fixtureRaw fixtureNorm rfl

/-- C3: `filterByMonth` is idempotent for a fixed month: filtering an
already-filtered table by the same month returns it unchanged. -/
theorem c3_filterByMonth_idempotent (t : List (Row Timestamp)) (m : Nat) :
    filterByMonth (filterByMonth t m) m = filterByMonth t m := by
  simp [filterByMonth, List.filter_filter]

/-- C4: on the two-row fixture table, after timestamp normalization,
filtering by month 3 returns exactly the single March row. -/
theorem c4_fixture_filter_march :
    normalizeTimestamp fixtureRaw = .ok fixtureNorm ∧
    filterByMonth fixtureNorm 3 = [fixtureMarchRow] :=
  ⟨rfl, rfl⟩

/-- C5: when no row of the table falls in the target month,
`filterByMonth` returns the empty table (it is total, never an error). -/
theorem c5_filterByMonth_no_match_empty (t : List (Row Timestamp)) (m : Nat)
    (h : ∀ r ∈ t, r.time.month ≠ m) : filterByMonth t m = [] := by
  simp only [filterByMonth, List.filter_eq_nil_iff]
  intro r hr
  simp [h r hr]

theorem c5_filterByMonth_no_match_empty_witness :
    filterByMonth [⟨⟨2020, 4, 1⟩, 18, "2020", []⟩] 3 = [] :=
  c5_filterByMonth_no_match_empty _ 3 (by decide)

/-- C6: `render` fails with a `RenderError` whenever some input table has
fewer than `minKdePoints` rows; in particular it fails on all-empty input. -/
theorem c6_render_short_error :
    ∀ (tables : List (List (Row Timestamp) × String)),
      (∃ p ∈ tables, p.1.length < minKdePoints) →
      render tables = .error .renderError := by
  intro tables
  induction tables with
  | nil => rintro ⟨p, hp, -⟩; cases hp
  | cons q rest ih =>
    rintro ⟨p, hp, hlen⟩
    obtain ⟨t, lab⟩ := q
    rw [render_cons]
    rcases List.mem_cons.mp hp with rfl | hmem
    · rw [kdeplot_short hlen]
      rfl
    · cases hk : kdeplot t with
      | error e =>
        rw [kdeplot_error_eq hk]
        rfl
      | ok c =>
        have hr : render rest = .error .renderError := ih ⟨p, hmem, hlen⟩
        show (render rest).bind _ = Except.error PipelineError.renderError
        rw [hr]
        rfl

theorem c6_render_short_error_witness :
    render [([], "2023"), ([], "2020")] = .error .renderError :=
  c6_render_short_error _ ⟨([], "2023"), List.mem_cons_self _ _, by decide⟩

/-- C7: `normalizeTimestamp` fails, with a `ParseError`, exactly when some
`time` value is unrecognizable; otherwise it converts every `time` value in
place, leaving `prom`, `etiqueta` and the extra columns unchanged. -/
theorem c7_normalizeTimestamp_parse_spec (t : List (Row String)) :
    ((∃ r ∈ t, parseDate r.time = none) ↔
      ∃ s, normalizeTimestamp t = .error (.parseError s)) ∧
    (∀ out, normalizeTimestamp t = .ok out →
      out.map (fun r => ((some r.time : Option Timestamp), r.prom, r.etiqueta, r.extra))
        = t.map fun r => (parseDate r.time, r.prom, r.etiqueta, r.extra)) := by
  constructor
  · constructor
    · rintro ⟨r, hm, hn⟩
      cases h : normalizeTimestamp t with
      | ok out =>
        have := forall₂_normalizeRow_isSome (normalizeTimestamp_ok_iff.mp h) r hm
        rw [hn] at this
        cases this
      | error e =>
        obtain ⟨r₀, _, _, he⟩ := normalizeTimestamp_error_parse h
        exact ⟨r₀.time, by rw [he]⟩
    · rintro ⟨s, hs⟩
      obtain ⟨r, hm, hn, _⟩ := normalizeTimestamp_error_parse hs
      exact ⟨r, hm, hn⟩
  · intro out h
    exact forall₂_normalizeRow_map_attrs (normalizeTimestamp_ok_iff.mp h)

/-- C8: the program filters both years' tables by calendar month 3: the rows
of `df_abril_2023` and `df_abril_2020`, the tables handed to `render`, are
exactly the rows of the respective input table with `time.month = 3`. -/
theorem c8_march_filter_both_years (d23 d20 : List (Row Timestamp)) (r : Row Timestamp) :
    (r ∈ df_abril_2023 d23 ↔ r ∈ d23 ∧ r.time.month = 3) ∧
    (r ∈ df_abril_2020 d20 ↔ r ∈ d20 ∧ r.time.month = 3) := by
  unfold df_abril_2023 df_abril_2020
  exact ⟨mem_filterByMonth, mem_filterByMonth⟩

/-- C9: `filterByMonth` mutates no row: every output row agrees with an
input row on `time`, `prom`, `etiqueta` and all extra columns (the input
list itself is a value the operation cannot alter). -/
theorem c9_filterByMonth_no_mutation (t : List (Row Timestamp)) (m : Nat) :
    ∀ r ∈ filterByMonth t m, ∃ r₀ ∈ t,
      r.time = r₀.time ∧ r.prom = r₀.prom ∧
        r.etiqueta = r₀.etiqueta ∧ r.extra = r₀.extra :=
  fun r hr => ⟨r, (mem_filterByMonth.mp hr).1, rfl, rfl, rfl, rfl⟩

theorem c9_filterByMonth_no_mutation_witness : fixtureMarchRow ∈ fixtureNorm := by
  obtain ⟨r₀, hm, h1, h2, h3, h4⟩ :=
    c9_filterByMonth_no_mutation fixtureNorm 3 fixtureMarchRow
      (by rw [show filterByMonth fixtureNorm 3 = [fixtureMarchRow] from rfl]
          exact List.mem_cons_self _ _)
  have e : fixtureMarchRow = (⟨r₀.time, r₀.prom, r₀.etiqueta, r₀.extra⟩ : Row Timestamp) := by
    rw [← h1, ← h2, ← h3, ← h4]
  rw [e]
  exact hm

/-- C10: label homogeneity: after `setEtiqueta`, every row of the 2023
table carries `"2023"` and every row of the 2020 table carries `"2020"`,
and the invariant is preserved by `normalizeTimestamp` and by
`filterByMonth`. -/
theorem c10_etiqueta_invariant (raw23 raw20 : List (Row String))
    (t23 t20 : List (Row Timestamp)) (m : Nat)
    (h23 : normalizeTimestamp (setEtiqueta raw23 "2023") = .ok t23)
    (h20 : normalizeTimestamp (setEtiqueta raw20 "2020") = .ok t20) :
    (∀ r ∈ setEtiqueta raw23 "2023", r.etiqueta = "2023") ∧
    (∀ r ∈ setEtiqueta raw20 "2020", r.etiqueta = "2020") ∧
    (∀ r ∈ t23, r.etiqueta = "2023") ∧ (∀ r ∈ t20, r.etiqueta = "2020") ∧
    (∀ r ∈ filterByMonth t23 m, r.etiqueta = "2023") ∧
    (∀ r ∈ filterByMonth t20 m, r.etiqueta = "2020") := by
  have k23 : ∀ r ∈ t23, r.etiqueta = "2023" := by
    intro r hr
    obtain ⟨r₀, hm, he⟩ := normalizeTimestamp_etiqueta h23 r hr
    rw [he]
    exact mem_setEtiqueta hm
  have k20 : ∀ r ∈ t20, r.etiqueta = "2020" := by
    intro r hr
    obtain ⟨r₀, hm, he⟩ := normalizeTimestamp_etiqueta h20 r hr
    rw [he]
    exact mem_setEtiqueta hm
  exact ⟨fun _ hr => mem_setEtiqueta hr, fun _ hr => mem_setEtiqueta hr, k23, k20,
    fun r hr => k23 r (mem_filterByMonth.mp hr).1,
    fun r hr => k20 r (mem_filterByMonth.mp hr).1⟩

theorem c10_etiqueta_invariant_witness :
    ((setEtiqueta fixtureNorm "2023").all fun r => r.etiqueta == "2023") = true ∧
    ((setEtiqueta fixtureNorm "2020").all fun r => r.etiqueta == "2020") = true := by
  have h := c10_etiqueta_invariant fixtureRaw fixtureRaw
    (setEtiqueta fixtureNorm "2023") (setEtiqueta fixtureNorm "2020") 3 rfl rfl
  refine ⟨List.all_eq_true.mpr fun r hr => ?_, List.all_eq_true.mpr fun r hr => ?_⟩
  · exact beq_iff_eq.mpr (h.2.2.1 r hr)
  · exact beq_iff_eq.mpr (h.2.2.2.1 r hr)
